import Mathlib

/-!
Verification development for the streaming voice-assistant backend
(`backend/text_processor.py`, `backend/conversation_manager.py`,
`backend/audio_processor.py`).

The Python code is shallowly embedded: strings are `String`, Python lists are
`List`, stateful while-loops become recursion (with an explicit step budget
equal to the list length where Python loops remove at least one element per
iteration, so the budget never runs out), concurrency is modelled by an
explicit completion-order parameter, and external collaborators (LLM, TTS,
STT services) are oracle parameters.  Whitespace is modelled as the ASCII
whitespace characters recognised by Python's `str.strip` and `\s`.
-/

namespace Auri

/-! ## Character classes (Python `str.strip`, regex `\s`, `[.?!]`) -/

/-- Sentence-terminal punctuation from the regex class `[.?!]` in
`split_into_sentences`. -/
def isTerminal (c : Char) : Bool :=
  c = '.' || c = '?' || c = '!'

/-- ASCII whitespace, as stripped by Python's `str.strip()` and matched by
the regex `\s` in `split_into_sentences`. -/
def isWS (c : Char) : Bool :=
  c = ' ' || c = '\t' || c = '\n' || c = '\r' || c = '\x0b' || c = '\x0c'

/-- Drop leading and trailing whitespace from a character list
(Python `str.strip()`). -/
def stripChars (cs : List Char) : List Char :=
  ((cs.dropWhile isWS).reverse.dropWhile isWS).reverse

/-- Python `text.strip()`. -/
def strip (s : String) : String :=
  String.mk (stripChars s.data)

/-! ## Sentence segmentation (`text_processor.split_into_sentences`)

The source splits with `re.split(r'(?<=[.?!])\s|(?<=[.?!])$', text.strip())`:
the separator is a single whitespace character preceded by terminal
punctuation (the zero-width end-of-string alternative only produces a
trailing empty piece, which the comprehension drops).  During the scan the
lookbehind inspects the character of the original string preceding the
current position, which is exactly the most recently accumulated character
of the current piece (after a split it is the consumed separator, never
terminal punctuation). -/

/-- Is the head of the reversed accumulator (i.e. the previous original
character) sentence-terminal punctuation? -/
def headTerminal : List Char → Bool
  | [] => false
  | c :: _ => isTerminal c

/-- Core of `re.split(r'(?<=[.?!])\s|(?<=[.?!])$', _)`: the accumulator holds
the current piece reversed. -/
def splitAux : List Char → List Char → List (List Char)
  | acc, [] => [acc.reverse]
  | acc, c :: rest =>
    if isWS c && headTerminal acc then
      acc.reverse :: splitAux [] rest
    else
      splitAux (c :: acc) rest

/-- `text_processor.split_into_sentences`: strip the text, split it at
sentence boundaries, strip every piece and drop the empty ones. -/
def split_into_sentences (text : String) : List String :=
  if text = "" then []
  else
    ((splitAux [] (stripChars text.data)).map
      (fun p => String.mk (stripChars p))).filter (fun s => s ≠ "")

/-! ## The incremental segmentation loop of `process_text` (lines 189-231)

Per token chunk the code appends to the rolling buffer, splits, dispatches
every sentence but the last one, and keeps the last sentence as the new
buffer.  An empty chunk is skipped (`if chunk:`). -/

/-- One iteration of the sentence-buffer loop: the state is
(sentences dispatched so far, current buffer). -/
def feedChunk (acc : List String × String) (chunk : String) : List String × String :=
  if chunk = "" then acc
  else
    let buffer := acc.2 ++ chunk
    let sentences := split_into_sentences buffer
    if 1 < sentences.length then
      (acc.1 ++ sentences.dropLast.filter (fun s => s ≠ ""),
        sentences.getLast?.getD buffer)
    else
      (acc.1, buffer)

/-- Feed all chunks through the `process_text` sentence loop, returning the
dispatched sentences and the final remainder buffer. -/
def segmentChunks (chunks : List String) : List String × String :=
  chunks.foldl feedChunk ([], "")




/-- The non-whitespace characters of a character list, in order. -/
def nonWSChars (cs : List Char) : List Char :=
  cs.filter (fun c => !(isWS c))

/-- The concatenated characters of a list of strings. -/
def joinData (l : List String) : List Char :=
  (l.map String.data).flatten

/-! ## Client-facing events and collaborator outcomes (`process_text`) -/

/-- The websocket events `process_text` can send; payload fields not needed
by the claims (timestamps, audio bytes, formats, ids) are omitted, the
numeric suffix of `part_id` (`f"{stream_id}_{i}"`) is kept as a `Nat`. -/
inductive ClientEvent where
  | streamStart
  | textChunk (text : String)
  | ttsAudio (partId : Nat)
  | streamEnd (fullResponse : String)
  | errorEvent (msg : String)
deriving DecidableEq

/-- Outcome of one dispatched `send_to_tts` task as observed by
`asyncio.gather(..., return_exceptions=True)`: an uncaught exception, a
`None` result (request failure, error status or empty audio payload are all
caught inside `send_to_tts` and returned as `None`), or an audio payload. -/
inductive TtsOutcome where
  | exc
  | noAudio
  | audio
deriving DecidableEq

/-- Outcome of the streaming call to the LLM collaborator: connection
failure, a non-200 status, or a stream of already-parsed chunk contents. -/
inductive LlmResult where
  | connectError
  | badStatus (code : Nat)
  | stream (chunks : List String)
deriving DecidableEq

def llmConnectMsg : String := "Could not connect to the language model service."

def llmStatusMsg (code : Nat) : String :=
  "The language model service failed with status " ++ toString code ++ "."

def ttsWarnMsg : String :=
  "An error occurred during speech synthesis. Some audio may be missing."

/-! ## The streaming loop of `process_text` (lines 183-231) -/

/-- Mutable state of the chunk loop in `process_text`. -/
structure StreamState where
  fullResponse : String
  buffer : String
  nParts : Nat
  dispatched : List String
  events : List ClientEvent
deriving DecidableEq

/-- State when the loop starts: `stream_start` has just been sent. -/
def initState : StreamState :=
  ⟨"", "", 0, [], [ClientEvent.streamStart]⟩

/-- One iteration of `async for line in response.aiter_lines()` for a chunk
whose parsed content is `chunk` (empty content is skipped by `if chunk:`):
append to the accumulators, relay the chunk, split the buffer, dispatch all
sentences but the last, keep the last sentence as the buffer. -/
def processChunk (st : StreamState) (chunk : String) : StreamState :=
  if chunk = "" then st
  else
    let buffer := st.buffer ++ chunk
    let events := st.events ++ [ClientEvent.textChunk chunk]
    let sentences := split_into_sentences buffer
    if 1 < sentences.length then
      let toSend := sentences.dropLast.filter (fun s => s ≠ "")
      { fullResponse := st.fullResponse ++ chunk
        buffer := sentences.getLast?.getD buffer
        nParts := st.nParts + toSend.length
        dispatched := st.dispatched ++ toSend
        events := events }
    else
      { st with fullResponse := st.fullResponse ++ chunk, buffer := buffer,
                events := events }

/-- After the stream ends, a non-whitespace remaining buffer is dispatched
as one final stripped segment (lines 226-231). -/
def flushFinal (st : StreamState) : StreamState :=
  if strip st.buffer ≠ "" then
    { st with nParts := st.nParts + 1,
              dispatched := st.dispatched ++ [strip st.buffer] }
  else st

/-! ## `asyncio.gather` and the in-order delivery loop (lines 233-254) -/

/-- Model of `await asyncio.gather(*tts_tasks, return_exceptions=True)`:
tasks finish in the completion order `order` (a schedule of task indices),
but `gather` returns the outcomes indexed by the dispatch order `0..n-1`,
independent of `order`.  If some dispatched task never completes, `gather`
never returns (`none`). -/
def gatherResults (n : Nat) (order : List Nat) (tts : Nat → TtsOutcome) :
    Option (List (Nat × TtsOutcome)) :=
  let done := order.map (fun j => (j, tts j))
  let lookup := fun i => (done.find? (fun p => p.1 == i)).map Prod.snd
  if (List.range n).all (fun i => (lookup i).isSome) then
    some ((List.range n).map (fun i => (i, (lookup i).getD TtsOutcome.exc)))
  else none

/-- The `for result in audio_results:` loop: audio payloads are sent in
result order; exceptions and `None` results only set the error flag, and
after the loop a single aggregated warning is sent if the flag is set. -/
def deliverLoop : List (Nat × TtsOutcome) → Bool → List ClientEvent
  | [], errFlag => if errFlag then [ClientEvent.errorEvent ttsWarnMsg] else []
  | (i, TtsOutcome.audio) :: rest, errFlag =>
      ClientEvent.ttsAudio i :: deliverLoop rest errFlag
  | (_, _) :: rest, _ => deliverLoop rest true

/-- Events produced by the delivery phase of `process_text`. -/
def deliverEvents (results : List (Nat × TtsOutcome)) : List ClientEvent :=
  deliverLoop results false

/-! ## `process_text` (lines 122-287) -/

/-- Model of `process_text`.  Parameters: the incoming `text` payload field,
the LLM collaborator's behaviour, the eventual outcome of the TTS task with
each part index, and the completion order of the TTS tasks.  Returns
`none` if the turn never finishes (a dispatched task never completes),
otherwise `(whether a request was issued to the LLM collaborator,
the events sent to the client in order)`. -/
def process_text_model (userText : String) (llm : LlmResult)
    (tts : Nat → TtsOutcome) (order : List Nat) :
    Option (Bool × List ClientEvent) :=
  if strip userText = "" then some (false, [])
  else
    match llm with
    | LlmResult.connectError => some (true, [ClientEvent.errorEvent llmConnectMsg])
    | LlmResult.badStatus c => some (true, [ClientEvent.errorEvent (llmStatusMsg c)])
    | LlmResult.stream chunks =>
      match gatherResults (flushFinal (chunks.foldl processChunk initState)).nParts
          order tts with
      | none => none
      | some results =>
          some (true, (flushFinal (chunks.foldl processChunk initState)).events ++
            deliverEvents results ++
            [ClientEvent.streamEnd
              (flushFinal (chunks.foldl processChunk initState)).fullResponse])

/-- The numeric `part_id`s of the `tts_audio` events of a trace, in order. -/
def ttsPartIds (evs : List ClientEvent) : List Nat :=
  evs.filterMap (fun e => match e with
    | ClientEvent.ttsAudio i => some i
    | _ => none)

/-- The subtrace of audio and error/warning events. -/
def audioWarnTrace (evs : List ClientEvent) : List ClientEvent :=
  evs.filter (fun e => match e with
    | ClientEvent.ttsAudio _ => true
    | ClientEvent.errorEvent _ => true
    | _ => false)



/-! ## Conversation history (`conversation_manager.ConversationManager`)

The history is a list of role/content messages.  The token counter is a
parameter (`tiktoken` if available, otherwise `len(text) // 4`); the token
and pair budgets `MAX_HISTORY_TOKENS` / `MAX_HISTORY_PAIRS` are parameters
(environment-configured, defaults 2000 and 5).  The while-loops of
`trim_history` remove at least one message per iteration, so running them
with a step budget equal to the history length is exact. -/

/-- A `{"role": ..., "content": ...}` history entry. -/
structure Message where
  role : String
  content : String
deriving DecidableEq

/-- The fallback tokenizer: `len(text) // 4`. -/
def approxTok (s : String) : Nat := s.length / 4

/-- `get_total_tokens`: sum of token counts of every message content. -/
def totalTokens (tok : String → Nat) (h : List Message) : Nat :=
  (h.map (fun m => tok m.content)).sum

/-- Count of `"user"` messages in the history (line 93). -/
def countUsers (h : List Message) : Nat :=
  h.countP (fun m => m.role == "user")

/-- Body of the token-budget loop: `pop(1)` then, if more than one message
remains, `pop(1)` again (lines 87-89). -/
def popPair2 (h : List Message) : List Message :=
  let h1 := h.eraseIdx 1
  if 1 < h1.length then h1.eraseIdx 1 else h1

/-- The token-budget while-loop (lines 85-89). -/
def trimTokensGo (tok : String → Nat) (maxT : Nat) : Nat → List Message → List Message
  | 0, h => h
  | fuel + 1, h =>
    if maxT < totalTokens tok h ∧ 3 < h.length then
      trimTokensGo tok maxT fuel (popPair2 h)
    else h

def trimTokensLoop (tok : String → Nat) (maxT : Nat) (h : List Message) : List Message :=
  trimTokensGo tok maxT h.length h

/-- Body of the pair-count loop (lines 97-103): remove the first `"user"`
message and, if the message now at its index is an `"assistant"` message,
remove that too. -/
def popUserPair (h : List Message) : List Message :=
  let i := h.findIdx (fun m => m.role == "user")
  let h1 := h.eraseIdx i
  if hi : i < h1.length then
    if (h1.get ⟨i, hi⟩).role = "assistant" then h1.eraseIdx i else h1
  else h1

/-- The pair-count while-loop (lines 95-103). -/
def trimPairsGo (maxP : Nat) : Nat → List Message → List Message
  | 0, h => h
  | fuel + 1, h =>
    if maxP < countUsers h then trimPairsGo maxP fuel (popUserPair h)
    else h

def trimPairsLoop (maxP : Nat) (h : List Message) : List Message :=
  trimPairsGo maxP h.length h

/-- `trim_history`: keep a history of at most one message unchanged, then
apply the token budget, then the pair budget. -/
def trim_history (tok : String → Nat) (maxT maxP : Nat) (h : List Message) :
    List Message :=
  if h.length ≤ 1 then h
  else trimPairsLoop maxP (trimTokensLoop tok maxT h)

/-- `add_user_message`: append, then trim (`last_activity` not modelled). -/
def add_user_message (tok : String → Nat) (maxT maxP : Nat) (h : List Message)
    (msg : String) : List Message :=
  trim_history tok maxT maxP (h ++ [⟨"user", msg⟩])

/-- `add_assistant_message`: append, then trim. -/
def add_assistant_message (tok : String → Nat) (maxT maxP : Nat) (h : List Message)
    (msg : String) : List Message :=
  trim_history tok maxT maxP (h ++ [⟨"assistant", msg⟩])

/-- The history is exactly a system prompt followed by one user/assistant
pair. -/
def isSystemPlusPair : List Message → Bool
  | [s, u, a] => s.role == "system" && u.role == "user" && a.role == "assistant"
  | _ => false

/-! ## Conversation modes (`DEFAULT_SYSTEM_PROMPTS`, `change_mode`) -/

def defaultPrompt : String :=
  "You are a helpful, conversational assistant. Speak clearly and naturally. Respond like you\x27re having a friendly conversation, not reading from a script."

def casualPrompt : String :=
  "You\x27re a friendly assistant chatting informally. Keep your responses brief and conversational."

def techSupportPrompt : String :=
  "You are a calm technical assistant helping users with their devices. Provide clear step-by-step instructions."

def concisePrompt : String :=
  "You are a helpful assistant that provides brief, to-the-point responses."

/-- `DEFAULT_SYSTEM_PROMPTS` as a partial map: `change_mode` only acts on
modes present in the dictionary (`if new_mode in DEFAULT_SYSTEM_PROMPTS`). -/
def systemPromptFor (mode : String) : Option String :=
  if mode = "default" then some defaultPrompt
  else if mode = "casual" then some casualPrompt
  else if mode = "tech_support" then some techSupportPrompt
  else if mode = "concise" then some concisePrompt
  else none

/-- `change_mode` (lines 121-132): for a known mode, overwrite the content
of the message at index 0 if it is a system message, otherwise insert a new
system message at index 0; for an unknown mode do nothing. -/
def change_mode (mode : String) (history : List Message) : List Message :=
  match systemPromptFor mode with
  | none => history
  | some p =>
    match history with
    | [] => [⟨"system", p⟩]
    | m0 :: rest =>
      if m0.role = "system" then { m0 with content := p } :: rest
      else ⟨"system", p⟩ :: m0 :: rest

/-! ## `audio_processor.process_audio` (lines 162-266)

The base64 decoder, the ffmpeg conversion, VAD, and the STT collaborator
are oracle parameters; the events and the "was the STT service / the text
processor reached" flags are the observables. -/

inductive AudioEvent where
  | transcriptionError (msg : String)
  | transcriptionResult (text : String)
deriving DecidableEq

/-- Outcome of `_convert_webm_to_wav_p_cm`: success, a `ValueError`
(lines 187-190), or any other exception (lines 191-194). -/
inductive ConvOutcome where
  | ok
  | convError
  | unexpectedError
deriving DecidableEq

/-- Outcome of the STT collaborator call. -/
inductive SttOutcome where
  | ok (transcription : String)
  | statusError (code : Nat)
  | requestError
deriving DecidableEq

/-- Result of one `process_audio` call. -/
structure AudioRun where
  events : List AudioEvent
  sttCalled : Bool
  textProcCalled : Bool
deriving DecidableEq

/-- Model of `process_audio`.  `audioB64` is the payload's `audio` field
(`none` when absent); `decodeLen s` is the byte length of `b64decode(s)`,
`none` when decoding raises `binascii.Error`. -/
def process_audio_model (audioB64 : Option String)
    (decodeLen : String → Option Nat) (conv : ConvOutcome) (stt : SttOutcome) :
    AudioRun :=
  match audioB64 with
  | none => ⟨[AudioEvent.transcriptionError "Empty audio payload received by server."],
      false, false⟩
  | some s =>
    if s = "" then
      ⟨[AudioEvent.transcriptionError "Empty audio payload received by server."],
        false, false⟩
    else
      match decodeLen s with
      | none => ⟨[AudioEvent.transcriptionError "Invalid audio data format received."],
          false, false⟩
      | some len =>
        if len < 1000 then
          ⟨[AudioEvent.transcriptionError "Audio recording too short."], false, false⟩
        else
          match conv with
          | ConvOutcome.convError =>
              ⟨[AudioEvent.transcriptionError "Audio conversion failed before VAD."],
                false, false⟩
          | ConvOutcome.unexpectedError =>
              ⟨[AudioEvent.transcriptionError
                  "Unexpected server error during audio conversion."], false, false⟩
          | ConvOutcome.ok =>
            match stt with
            | SttOutcome.requestError =>
                ⟨[AudioEvent.transcriptionError
                    "Could not connect to the speech-to-text service."], true, false⟩
            | SttOutcome.statusError c =>
                ⟨[AudioEvent.transcriptionError
                    ("Speech-to-text service error (" ++ toString c ++ ").")],
                  true, false⟩
            | SttOutcome.ok t =>
              if strip t = "" then
                ⟨[AudioEvent.transcriptionError "Could not understand audio."],
                  true, false⟩
              else
                ⟨[AudioEvent.transcriptionResult (strip t)], true, true⟩

/-! ## `clean_for_tts` (text_processor lines 51-60)

Four steps: `re.sub(r'[\*`#_]', '', text)`, then
`re.sub(r'\[(.*?)\]\(.*?\)', r'\1', text)`, then
`text.replace('\n', ' ').replace('  ', ' ').strip()`.
The link regex is embedded with explicit lazy matching and backtracking:
`.` never matches a newline, `.*?` grows one character at a time, and the
engine scans left to right restarting at the character after a match. -/

/-- One of the markdown marker characters `[\*`#_]` (the second is a
backtick). -/
def isMarker (c : Char) : Bool :=
  c = '*' || c = '\x60' || c = '#' || c = '_'

/-- Lazy `\(.*?\)` after the label: consume up to the first `')'`; `.` does
not match `'\n'`, so reaching a newline (or the end) means no match. -/
def takeUrl : List Char → Option (List Char)
  | [] => none
  | c :: rest =>
    if c = ')' then some rest
    else if c = '\n' then none
    else takeUrl rest

/-- Lazy `(.*?)\]\(.*?\)` after the opening `'['`: `labRev` is the label
candidate so far, reversed.  At each `']'` immediately followed by `'('`
the engine first tries to close the link; on failure the `']'` is absorbed
into the label and the scan continues.  Returns the matched label and the
characters after the closing `')'`. -/
def tryFrom (labRev : List Char) : List Char → Option (List Char × List Char)
  | [] => none
  | c :: rest =>
    if c = ']' then
      match rest with
      | [] => tryFrom (c :: labRev) rest
      | c2 :: rest2 =>
        if c2 = '(' then
          match takeUrl rest2 with
          | some rest3 => some (labRev.reverse, rest3)
          | none => tryFrom (c :: labRev) rest
        else tryFrom (c :: labRev) rest
    else if c = '\n' then none
    else tryFrom (c :: labRev) rest

/-- `re.sub(r'\[(.*?)\]\(.*?\)', r'\1', _)`, scanning left to right.  Every
step consumes at least one character, so a step budget equal to the input
length is exact. -/
def subLinksGo : Nat → List Char → List Char
  | _, [] => []
  | 0, cs => cs
  | fuel + 1, c :: rest =>
    if c = '[' then
      match tryFrom [] rest with
      | some (label, rest3) => label ++ subLinksGo fuel rest3
      | none => c :: subLinksGo fuel rest
    else c :: subLinksGo fuel rest

def subLinks (cs : List Char) : List Char :=
  subLinksGo cs.length cs

/-- Python `replace('  ', ' ')`: a single left-to-right pass replacing
non-overlapping pairs of spaces by one space. -/
def collapseDoubleSpace : List Char → List Char
  | [] => []
  | [c] => [c]
  | c1 :: c2 :: rest =>
    if c1 = ' ' && c2 = ' ' then ' ' :: collapseDoubleSpace rest
    else c1 :: collapseDoubleSpace (c2 :: rest)

/-- `clean_for_tts`. -/
def clean_for_tts (text : String) : String :=
  if text = "" then ""
  else
    let t1 := text.data.filter (fun c => !(isMarker c))
    let t2 := subLinks t1
    let t3 := t2.map (fun c => if c = '\n' then ' ' else c)
    let t4 := collapseDoubleSpace t3
    String.mk (stripChars t4)

/-- A character the claim says is always removed or replaced: the four
markdown markers and the newline. -/
def badChar (c : Char) : Bool :=
  isMarker c || c = '\n'

/-- No marker characters and no newline anywhere in the string. -/
def noBadChars (s : String) : Bool :=
  s.data.all (fun c => !(badChar c))

/-- Two consecutive whitespace characters occur somewhere in the list. -/
def hasWSRunAux : List Char → Bool
  | c1 :: c2 :: rest => (isWS c1 && isWS c2) || hasWSRunAux (c2 :: rest)
  | _ => false

/-- The string contains a run of two or more consecutive whitespace
characters. -/
def hasWSRun (s : String) : Bool :=
  hasWSRunAux s.data




/-! # Claims -/

/-- C9: an incoming text payload whose `text` field is empty or whitespace
only makes `process_text` return silently: no event is sent and no request
is issued to the generation collaborator, whatever the collaborators would
have done. -/
theorem empty_text_ignored (userText : String) (llm : LlmResult)
    (tts : Nat → TtsOutcome) (order : List Nat) (h : strip userText = "") :
    process_text_model userText llm tts order = some (false, []) := by
  unfold process_text_model
  rw [if_pos h]

theorem empty_text_ignored_witness :
    process_text_model "  " LlmResult.connectError (fun _ => TtsOutcome.audio) [] =
      some (false, []) :=
  empty_text_ignored "  " LlmResult.connectError (fun _ => TtsOutcome.audio) []
    (by decide)

/-- C10: an audio payload with a missing (or empty) `audio` field, or whose
base64-decoded audio is shorter than 1000 bytes, makes `process_audio` send
exactly one `transcription_error` event and return without reaching the
transcription collaborator or the text processor. -/
theorem audio_guard_rejects_small (audioB64 : Option String)
    (decodeLen : String → Option Nat) (conv : ConvOutcome) (stt : SttOutcome)
    (h : audioB64 = none ∨
      ∃ s, audioB64 = some s ∧ s ≠ "" ∧ ∃ n, decodeLen s = some n ∧ n < 1000) :
    ∃ m, process_audio_model audioB64 decodeLen conv stt =
      ⟨[AudioEvent.transcriptionError m], false, false⟩ := by
  rcases h with h | ⟨s, hs, hne, n, hdec, hlt⟩
  · subst h
    exact ⟨"Empty audio payload received by server.", rfl⟩
  · subst hs
    refine ⟨"Audio recording too short.", ?_⟩
    simp only [process_audio_model, if_neg hne, hdec, if_pos hlt]

theorem audio_guard_rejects_small_witness :
    ∃ m, process_audio_model none (fun _ => none) ConvOutcome.ok (SttOutcome.ok "") =
      ⟨[AudioEvent.transcriptionError m], false, false⟩ :=
  audio_guard_rejects_small none (fun _ => none) ConvOutcome.ok (SttOutcome.ok "")
    (Or.inl rfl)

/-- C7: for every history and every mode that has a system prompt,
`change_mode` makes the message at index 0 the system message carrying the
requested mode's prompt (overwriting a present system message, inserting one
otherwise), and everything beyond index 0 is exactly the untouched rest of
the history. -/
theorem change_mode_replaces_head (mode p : String) (h : List Message)
    (hp : systemPromptFor mode = some p) :
    (change_mode mode h).head? = some ⟨"system", p⟩ ∧
    (change_mode mode h).tail =
      (if h.head?.map Message.role = some "system" then h.tail else h) := by
  match h with
  | [] => exact ⟨by simp [change_mode, hp], by simp [change_mode, hp]⟩
  | m0 :: rest =>
    by_cases hm : m0.role = "system"
    · constructor
      · simp [change_mode, hp, hm]
      · simp [change_mode, hp, hm]
    · constructor
      · simp [change_mode, hp, hm]
      · simp [change_mode, hp, hm]

theorem change_mode_replaces_head_witness :
    (change_mode "casual" [⟨"system", "old"⟩, ⟨"user", "hi"⟩]).head? =
        some ⟨"system", casualPrompt⟩ ∧
    (change_mode "casual" [⟨"system", "old"⟩, ⟨"user", "hi"⟩]).tail =
      (if ([⟨"system", "old"⟩, ⟨"user", "hi"⟩] : List Message).head?.map Message.role
          = some "system"
       then ([⟨"system", "old"⟩, ⟨"user", "hi"⟩] : List Message).tail
       else [⟨"system", "old"⟩, ⟨"user", "hi"⟩]) :=
  change_mode_replaces_head "casual" casualPrompt
    [⟨"system", "old"⟩, ⟨"user", "hi"⟩] rfl

/-- C2, counterexample: with three dispatched segments of which the second
fails and the rest succeed, the client receives audio 1, audio 3, and then
the single aggregated warning — not audio 1, warning, audio 3 as claimed. -/
theorem segment_failure_warning_order_cex :
    audioWarnTrace (((process_text_model "hi" (LlmResult.stream ["One. Two. Three. "])
        (fun i => if i = 1 then TtsOutcome.noAudio else TtsOutcome.audio)
        [0, 1, 2]).getD (false, [])).2) =
      [ClientEvent.ttsAudio 0, ClientEvent.ttsAudio 2,
        ClientEvent.errorEvent ttsWarnMsg] ∧
    audioWarnTrace (((process_text_model "hi" (LlmResult.stream ["One. Two. Three. "])
        (fun i => if i = 1 then TtsOutcome.noAudio else TtsOutcome.audio)
        [0, 1, 2]).getD (false, [])).2) ≠
      [ClientEvent.ttsAudio 0, ClientEvent.errorEvent ttsWarnMsg,
        ClientEvent.ttsAudio 2] := by
  constructor
  · decide
  · decide

/-- C3, counterexample: the concatenation of the returned sentences and the
remainder is not the concatenation of the inputs — the separator whitespace
after "Hello." is lost. -/
theorem segmentation_lossless_cex :
    String.join (segmentChunks ["Hello. Hi."]).1 ++ (segmentChunks ["Hello. Hi."]).2 ≠
      String.join ["Hello. Hi."] := by
  decide

/-- C4, counterexample: fed the chunks "Hello world. ", "How are you? ",
"I", the loop does not produce the sentences ["Hello world.", "How are
you?"] with remainder "I". -/
theorem incremental_scenario_cex :
    segmentChunks ["Hello world. ", "How are you? ", "I"] ≠
      (["Hello world.", "How are you?"], "I") := by
  decide

/-- C4, amended: the remainder kept between feeds is the stripped last
sentence, so the whitespace that separated it from the next chunk is gone
and the sentence boundary before "I" is lost: the three chunks yield the
single sentence "Hello world." and the final remainder "How are you?I"
(while one final call over the complete text would yield three sentences). -/
theorem incremental_scenario_actual :
    segmentChunks ["Hello world. ", "How are you? ", "I"] =
      (["Hello world."], "How are you?I") ∧
    split_into_sentences "Hello world. How are you? I" =
      ["Hello world.", "How are you?", "I"] := by
  constructor
  · decide
  · decide

/-- C5, counterexample: adding one over-budget user message to a fresh
session (history = system prompt only, default budgets
`MAX_HISTORY_TOKENS = 2000`, `MAX_HISTORY_PAIRS = 5`, fallback tokenizer)
leaves a 2-entry history `[system, user]`: the token count exceeds the
maximum, yet the history is not the system prompt plus one
user/assistant pair. -/
theorem token_budget_floor_cex :
    2000 < totalTokens approxTok
        (add_user_message approxTok 2000 5 [⟨"system", defaultPrompt⟩]
          (String.mk (List.replicate 9000 'a'))) ∧
    isSystemPlusPair
        (add_user_message approxTok 2000 5 [⟨"system", defaultPrompt⟩]
          (String.mk (List.replicate 9000 'a'))) = false := by
  have hlen : (String.mk (List.replicate 9000 'a')).length = 9000 := by
    rw [String.length, List.length_replicate]
  have htok : approxTok (String.mk (List.replicate 9000 'a')) = 2250 := by
    show (String.mk (List.replicate 9000 'a')).length / 4 = 2250
    rw [hlen]
  have hr : add_user_message approxTok 2000 5 [⟨"system", defaultPrompt⟩]
      (String.mk (List.replicate 9000 'a')) =
      [⟨"system", defaultPrompt⟩, ⟨"user", String.mk (List.replicate 9000 'a')⟩] := by
    unfold add_user_message trim_history
    rw [show ([⟨"system", defaultPrompt⟩] ++
        [(⟨"user", String.mk (List.replicate 9000 'a')⟩ : Message)]) =
      [⟨"system", defaultPrompt⟩,
        ⟨"user", String.mk (List.replicate 9000 'a')⟩] from rfl]
    rw [if_neg (show ¬([(⟨"system", defaultPrompt⟩ : Message),
        ⟨"user", String.mk (List.replicate 9000 'a')⟩].length ≤ 1) from by
      rw [show ([(⟨"system", defaultPrompt⟩ : Message),
        ⟨"user", String.mk (List.replicate 9000 'a')⟩].length) = 2 from rfl]
      omega)]
    unfold trimTokensLoop
    rw [show ([(⟨"system", defaultPrompt⟩ : Message),
        ⟨"user", String.mk (List.replicate 9000 'a')⟩].length) = 2 from rfl]
    rw [show trimTokensGo approxTok 2000 2
        [⟨"system", defaultPrompt⟩, ⟨"user", String.mk (List.replicate 9000 'a')⟩] =
        if 2000 < totalTokens approxTok [⟨"system", defaultPrompt⟩,
            ⟨"user", String.mk (List.replicate 9000 'a')⟩] ∧
          3 < ([(⟨"system", defaultPrompt⟩ : Message),
            ⟨"user", String.mk (List.replicate 9000 'a')⟩].length) then
          trimTokensGo approxTok 2000 1 (popPair2 [⟨"system", defaultPrompt⟩,
            ⟨"user", String.mk (List.replicate 9000 'a')⟩])
        else [⟨"system", defaultPrompt⟩,
            ⟨"user", String.mk (List.replicate 9000 'a')⟩] from rfl]
    rw [if_neg (fun hc => absurd hc.2 (show ¬(3 < ([(⟨"system", defaultPrompt⟩ : Message),
        ⟨"user", String.mk (List.replicate 9000 'a')⟩].length)) from by
      rw [show ([(⟨"system", defaultPrompt⟩ : Message),
        ⟨"user", String.mk (List.replicate 9000 'a')⟩].length) = 2 from rfl]
      omega))]
    unfold trimPairsLoop
    rw [show ([(⟨"system", defaultPrompt⟩ : Message),
        ⟨"user", String.mk (List.replicate 9000 'a')⟩].length) = 2 from rfl]
    rw [show trimPairsGo 5 2
        [⟨"system", defaultPrompt⟩, ⟨"user", String.mk (List.replicate 9000 'a')⟩] =
        if 5 < countUsers [⟨"system", defaultPrompt⟩,
            ⟨"user", String.mk (List.replicate 9000 'a')⟩] then
          trimPairsGo 5 1 (popUserPair [⟨"system", defaultPrompt⟩,
            ⟨"user", String.mk (List.replicate 9000 'a')⟩])
        else [⟨"system", defaultPrompt⟩,
            ⟨"user", String.mk (List.replicate 9000 'a')⟩] from rfl]
    rw [if_neg (show ¬(5 < countUsers [⟨"system", defaultPrompt⟩,
        ⟨"user", String.mk (List.replicate 9000 'a')⟩]) from by
      rw [show countUsers [(⟨"system", defaultPrompt⟩ : Message),
        ⟨"user", String.mk (List.replicate 9000 'a')⟩] = 1 from rfl]
      omega)]
  rw [hr]
  constructor
  · unfold totalTokens
    simp only [List.map_cons, List.map_nil, List.sum_cons, List.sum_nil]
    rw [htok]
    omega
  · rfl

/-- C8, counterexample: `replace('  ', ' ')` makes a single pass, so the
cleaned text can still contain a run of two or more consecutive whitespace
characters: four spaces collapse to two, not one. -/
theorem clean_whitespace_run_cex :
    clean_for_tts "a    b" = "a  b" ∧ hasWSRun (clean_for_tts "a    b") = true := by
  constructor
  · decide
  · decide

/-! ### Helper lemmas about the trim loops -/

lemma popPair2_length_lt (h : List Message) (hl : 1 < h.length) :
    (popPair2 h).length < h.length := by
  simp only [popPair2]
  have h1 : (h.eraseIdx 1).length = h.length - 1 := by
    rw [List.length_eraseIdx]; simp [hl]
  split
  · have h2 := ((h.eraseIdx 1).eraseIdx_sublist 1).length_le
    omega
  · omega

lemma popPair2_sublist (h : List Message) : List.Sublist (popPair2 h) h := by
  simp only [popPair2]
  split
  · exact ((h.eraseIdx 1).eraseIdx_sublist 1).trans (h.eraseIdx_sublist 1)
  · exact h.eraseIdx_sublist 1

lemma trimTokensGo_sublist (tok : String → Nat) (maxT : Nat) :
    ∀ (fuel : Nat) (h : List Message),
      List.Sublist (trimTokensGo tok maxT fuel h) h := by
  intro fuel
  induction fuel with
  | zero => intro h; exact List.Sublist.refl h
  | succ n ih =>
    intro h
    unfold trimTokensGo
    split
    · exact (ih (popPair2 h)).trans (popPair2_sublist h)
    · exact List.Sublist.refl h

lemma trimTokensGo_post (tok : String → Nat) (maxT : Nat) :
    ∀ (fuel : Nat) (h : List Message), h.length ≤ fuel →
      totalTokens tok (trimTokensGo tok maxT fuel h) ≤ maxT ∨
        (trimTokensGo tok maxT fuel h).length ≤ 3 := by
  intro fuel
  induction fuel with
  | zero =>
    intro h hl
    right
    show h.length ≤ 3
    omega
  | succ n ih =>
    intro h hl
    unfold trimTokensGo
    split
    · rename_i hc
      apply ih
      have := popPair2_length_lt h (by omega)
      omega
    · rename_i hc
      omega

lemma trimTokensGo_fix (tok : String → Nat) (maxT fuel : Nat) (h : List Message)
    (hc : ¬(maxT < totalTokens tok h ∧ 3 < h.length)) :
    trimTokensGo tok maxT fuel h = h := by
  cases fuel with
  | zero => rfl
  | succ n => unfold trimTokensGo; rw [if_neg hc]

lemma popUserPair_length_lt (h : List Message) (hc : 0 < countUsers h) :
    (popUserPair h).length < h.length := by
  have hidx : h.findIdx (fun m => m.role == "user") < h.length :=
    List.findIdx_lt_length_of_exists (List.countP_pos_iff.mp hc)
  have h1 : (h.eraseIdx (h.findIdx (fun m => m.role == "user"))).length =
      h.length - 1 := by
    rw [List.length_eraseIdx]; simp [hidx]
  simp only [popUserPair]
  split
  · split
    · have h2 := ((h.eraseIdx (h.findIdx (fun m => m.role == "user"))).eraseIdx_sublist
        (h.findIdx (fun m => m.role == "user"))).length_le
      omega
    · omega
  · omega

lemma popUserPair_sublist (h : List Message) : List.Sublist (popUserPair h) h := by
  simp only [popUserPair]
  split
  · split
    · exact (List.eraseIdx_sublist _ _).trans (List.eraseIdx_sublist _ _)
    · exact List.eraseIdx_sublist _ _
  · exact List.eraseIdx_sublist _ _

lemma trimPairsGo_sublist (maxP : Nat) :
    ∀ (fuel : Nat) (h : List Message),
      List.Sublist (trimPairsGo maxP fuel h) h := by
  intro fuel
  induction fuel with
  | zero => intro h; exact List.Sublist.refl h
  | succ n ih =>
    intro h
    unfold trimPairsGo
    split
    · exact (ih (popUserPair h)).trans (popUserPair_sublist h)
    · exact List.Sublist.refl h

lemma trimPairsGo_post (maxP : Nat) :
    ∀ (fuel : Nat) (h : List Message), h.length ≤ fuel →
      countUsers (trimPairsGo maxP fuel h) ≤ maxP := by
  intro fuel
  induction fuel with
  | zero =>
    intro h hl
    have hnil : h = [] := List.length_eq_zero.mp (by omega)
    subst hnil
    show countUsers [] ≤ maxP
    simp [countUsers]
  | succ n ih =>
    intro h hl
    unfold trimPairsGo
    split
    · rename_i hc
      apply ih
      have := popUserPair_length_lt h (by omega)
      omega
    · rename_i hc
      omega

lemma trimPairsGo_fix (maxP fuel : Nat) (h : List Message)
    (hc : ¬(maxP < countUsers h)) :
    trimPairsGo maxP fuel h = h := by
  cases fuel with
  | zero => rfl
  | succ n => unfold trimPairsGo; rw [if_neg hc]

lemma totalTokens_mono (tok : String → Nat) {h1 h2 : List Message}
    (hs : List.Sublist h1 h2) :
    totalTokens tok h1 ≤ totalTokens tok h2 := by
  unfold totalTokens
  exact List.Sublist.sum_le_sum (hs.map _) (by simp)

/-- `trim_history` leaves a state on which running it again changes
nothing. -/
lemma trimmed_fix (tok : String → Nat) (maxT maxP : Nat) (g : List Message)
    (hTok : ¬(maxT < totalTokens tok g ∧ 3 < g.length))
    (hPairs : ¬(maxP < countUsers g)) :
    trim_history tok maxT maxP g = g := by
  unfold trim_history
  by_cases hl : g.length ≤ 1
  · rw [if_pos hl]
  · rw [if_neg hl]
    unfold trimPairsLoop trimTokensLoop
    rw [trimTokensGo_fix tok maxT g.length g hTok, trimPairsGo_fix maxP g.length g hPairs]

/-- After `trim_history`, either the token budget is met or at most three
messages remain. -/
lemma trim_history_bound (tok : String → Nat) (maxT maxP : Nat) (g : List Message) :
    totalTokens tok (trim_history tok maxT maxP g) ≤ maxT ∨
      (trim_history tok maxT maxP g).length ≤ 3 := by
  by_cases hl : g.length ≤ 1
  · right
    have hT : trim_history tok maxT maxP g = g := by
      unfold trim_history; rw [if_pos hl]
    rw [hT]; omega
  · have hT : trim_history tok maxT maxP g =
        trimPairsGo maxP (trimTokensGo tok maxT g.length g).length
          (trimTokensGo tok maxT g.length g) := by
      unfold trim_history; rw [if_neg hl]; rfl
    rw [hT]
    have hpost1 := trimTokensGo_post tok maxT g.length g (le_refl _)
    have hsub := trimPairsGo_sublist maxP (trimTokensGo tok maxT g.length g).length
      (trimTokensGo tok maxT g.length g)
    have hmono := totalTokens_mono tok hsub
    have hlen2 := hsub.length_le
    rcases hpost1 with hp | hp
    · left; omega
    · right; omega

/-- C5, amended: after `add_user_message` or `add_assistant_message`, either
the total token count of the history is at most the configured maximum, or
the history has at most 3 entries — the system prompt plus at most one
user/assistant exchange (immediately after `add_user_message` the floor can
be the system prompt plus the lone new user message, 2 entries). -/
theorem token_budget_after_add (tok : String → Nat) (maxT maxP : Nat)
    (h : List Message) (msg : String) :
    (totalTokens tok (add_user_message tok maxT maxP h msg) ≤ maxT ∨
      (add_user_message tok maxT maxP h msg).length ≤ 3) ∧
    (totalTokens tok (add_assistant_message tok maxT maxP h msg) ≤ maxT ∨
      (add_assistant_message tok maxT maxP h msg).length ≤ 3) := by
  unfold add_user_message add_assistant_message
  exact ⟨trim_history_bound tok maxT maxP (h ++ [⟨"user", msg⟩]),
    trim_history_bound tok maxT maxP (h ++ [⟨"assistant", msg⟩])⟩

/-- C6: `trim_history` is idempotent — running it a second time on any
history (for any tokenizer and any budgets) removes nothing and changes
nothing. -/
theorem trim_idempotent (tok : String → Nat) (maxT maxP : Nat) (h : List Message) :
    trim_history tok maxT maxP (trim_history tok maxT maxP h) =
      trim_history tok maxT maxP h := by
  by_cases hl : h.length ≤ 1
  · have hT : trim_history tok maxT maxP h = h := by
      unfold trim_history; rw [if_pos hl]
    rw [hT, hT]
  · have hT : trim_history tok maxT maxP h =
        trimPairsGo maxP (trimTokensGo tok maxT h.length h).length
          (trimTokensGo tok maxT h.length h) := by
      unfold trim_history; rw [if_neg hl]; rfl
    have hpost1 := trimTokensGo_post tok maxT h.length h (le_refl _)
    have hsub := trimPairsGo_sublist maxP (trimTokensGo tok maxT h.length h).length
      (trimTokensGo tok maxT h.length h)
    have hpost2 := trimPairsGo_post maxP (trimTokensGo tok maxT h.length h).length
      (trimTokensGo tok maxT h.length h) (le_refl _)
    have hmono := totalTokens_mono tok hsub
    have hlen2 := hsub.length_le
    rw [hT]
    apply trimmed_fix
    · rintro ⟨ha, hb⟩
      rcases hpost1 with hp | hp
      · omega
      · omega
    · omega

/-! ### Helper lemmas: segmentation loses only whitespace -/

lemma data_mk (l : List Char) : (String.mk l).data = l := rfl

lemma data_append (a b : String) : (a ++ b).data = a.data ++ b.data := by
  cases a; cases b; rfl

lemma joinData_nil : joinData [] = [] := rfl

lemma joinData_cons (s : String) (t : List String) :
    joinData (s :: t) = s.data ++ joinData t := by
  unfold joinData
  rw [List.map_cons, List.flatten_cons]

lemma joinData_append (a b : List String) :
    joinData (a ++ b) = joinData a ++ joinData b := by
  unfold joinData
  rw [List.map_append, List.flatten_append]

lemma nonWS_append (a b : List Char) :
    nonWSChars (a ++ b) = nonWSChars a ++ nonWSChars b := by
  unfold nonWSChars
  rw [List.filter_append]

lemma nonWS_dropWhile (l : List Char) :
    nonWSChars (l.dropWhile isWS) = nonWSChars l := by
  induction l with
  | nil => rfl
  | cons c t ih =>
    rw [List.dropWhile_cons]
    by_cases hc : isWS c
    · rw [if_pos hc, ih]
      unfold nonWSChars
      rw [List.filter_cons, if_neg (by simp [hc])]
    · rw [if_neg hc]

lemma nonWS_reverse (l : List Char) :
    nonWSChars l.reverse = (nonWSChars l).reverse := by
  unfold nonWSChars
  exact List.filter_reverse ..

lemma nonWS_stripChars (l : List Char) :
    nonWSChars (stripChars l) = nonWSChars l := by
  unfold stripChars
  rw [nonWS_reverse, nonWS_dropWhile, nonWS_reverse, List.reverse_reverse,
    nonWS_dropWhile]

/-- The pieces produced by the split carry exactly the non-whitespace
characters of the input: only separator whitespace is dropped. -/
lemma nonWS_splitAux :
    ∀ (cs acc : List Char),
      nonWSChars (splitAux acc cs).flatten = nonWSChars (acc.reverse ++ cs) := by
  intro cs
  induction cs with
  | nil =>
    intro acc
    show nonWSChars [acc.reverse].flatten = _
    rw [show ([acc.reverse] : List (List Char)).flatten = acc.reverse ++ [] from by
      rw [List.flatten_cons, List.flatten_nil]]
  | cons c rest ih =>
    intro acc
    unfold splitAux
    by_cases hc : (isWS c && headTerminal acc) = true
    · rw [if_pos hc]
      rw [List.flatten_cons, nonWS_append, ih [], List.reverse_nil, List.nil_append,
        nonWS_append]
      have hcw : isWS c = true := by
        rcases Bool.and_eq_true .. |>.mp hc with ⟨h1, h2⟩
        exact h1
      unfold nonWSChars
      rw [List.filter_cons, if_neg (by simp [hcw])]
    · rw [if_neg hc, ih (c :: acc), List.reverse_cons, List.append_assoc,
        List.singleton_append]

/-- Dropping the empty strings does not change the concatenation. -/
lemma joinData_filter_ne_empty (l : List String) :
    joinData (l.filter (fun s => s ≠ "")) = joinData l := by
  induction l with
  | nil => rfl
  | cons s t ih =>
    by_cases hs : s = ""
    · subst hs
      rw [List.filter_cons, if_neg (by simp), ih, joinData_cons]
      rw [show ("" : String).data = [] from rfl, List.nil_append]
    · rw [List.filter_cons, if_pos (by simp [hs]), joinData_cons, joinData_cons, ih]

lemma nonWS_flatten_map_strip (pieces : List (List Char)) :
    nonWSChars (pieces.map stripChars).flatten = nonWSChars pieces.flatten := by
  induction pieces with
  | nil => rfl
  | cons p t ih =>
    rw [List.map_cons, List.flatten_cons, List.flatten_cons, nonWS_append,
      nonWS_append, nonWS_stripChars, ih]

/-- `split_into_sentences` keeps exactly the non-whitespace characters of
its input, in order. -/
lemma nonWS_split (s : String) :
    nonWSChars (joinData (split_into_sentences s)) = nonWSChars s.data := by
  by_cases hs : s = ""
  · subst hs; rfl
  · unfold split_into_sentences
    rw [if_neg hs]
    rw [joinData_filter_ne_empty]
    have hmap : ((splitAux [] (stripChars s.data)).map
        (fun p => String.mk (stripChars p))).map String.data =
        (splitAux [] (stripChars s.data)).map stripChars := by
      rw [List.map_map]
      exact List.map_congr_left (fun p _ => rfl)
    unfold joinData
    rw [hmap, nonWS_flatten_map_strip, nonWS_splitAux, List.reverse_nil,
      List.nil_append, nonWS_stripChars]

/-- One step of the chunk loop keeps exactly the non-whitespace
characters. -/
lemma nonWS_feedChunk (e : List String) (b ch : String) :
    nonWSChars (joinData (feedChunk (e, b) ch).1 ++
        ((feedChunk (e, b) ch).2).data) =
      nonWSChars (joinData e ++ b.data ++ ch.data) := by
  by_cases hch : ch = ""
  · subst hch
    show nonWSChars (joinData e ++ b.data) = _
    rw [show ("" : String).data = [] from rfl, List.append_nil]
  · simp only [feedChunk, if_neg hch]
    by_cases hlen : 1 < (split_into_sentences (b ++ ch)).length
    · rw [if_pos hlen]
      have hne : split_into_sentences (b ++ ch) ≠ [] := by
        intro hnil
        rw [hnil] at hlen
        simp at hlen
      have key : joinData (split_into_sentences (b ++ ch)).dropLast ++
          ((split_into_sentences (b ++ ch)).getLast hne).data =
          joinData (split_into_sentences (b ++ ch)) := by
        have h3 : joinData [(split_into_sentences (b ++ ch)).getLast hne] =
            ((split_into_sentences (b ++ ch)).getLast hne).data := by
          rw [joinData_cons, joinData_nil, List.append_nil]
        rw [← h3, ← joinData_append, List.dropLast_append_getLast hne]
      have h4 := congrArg nonWSChars key
      rw [nonWS_append, nonWS_split, data_append, nonWS_append] at h4
      show nonWSChars (joinData (e ++
          (split_into_sentences (b ++ ch)).dropLast.filter (fun s => s ≠ "")) ++
          ((split_into_sentences (b ++ ch)).getLast?.getD (b ++ ch)).data) = _
      rw [List.getLast?_eq_getLast _ hne, Option.getD_some, joinData_append,
        joinData_filter_ne_empty]
      simp only [nonWS_append, List.append_assoc]
      rw [h4]
    · rw [if_neg hlen]
      show nonWSChars (joinData e ++ (b ++ ch).data) = _
      rw [data_append, ← List.append_assoc]

/-- The fold invariant of the chunk loop: no non-whitespace character is
ever created or destroyed. -/
lemma nonWS_feed_invariant :
    ∀ (chunks : List String) (e : List String) (b : String),
      nonWSChars (joinData (chunks.foldl feedChunk (e, b)).1 ++
          ((chunks.foldl feedChunk (e, b)).2).data) =
        nonWSChars (joinData e ++ b.data ++ joinData chunks) := by
  intro chunks
  induction chunks with
  | nil =>
    intro e b
    show nonWSChars (joinData e ++ b.data) = _
    rw [joinData_nil, List.append_assoc, List.append_nil]
  | cons ch t ih =>
    intro e b
    rw [List.foldl_cons, ih]
    have h2 := congrArg (fun l => l ++ nonWSChars (joinData t)) (nonWS_feedChunk e b ch)
    simp only [nonWS_append, List.append_assoc, joinData_cons] at h2 ⊢
    exact h2

/-- C3, amended: segmentation is lossless up to whitespace — for every
sequence of chunks fed to the loop, the concatenation of the returned
sentences and the final remainder carries exactly the non-whitespace
characters of the concatenated input, in order (separator and stripped
whitespace characters are dropped, nothing else changes). -/
theorem segmentation_preserves_nonws (chunks : List String) :
    nonWSChars (joinData (segmentChunks chunks).1 ++
        ((segmentChunks chunks).2).data) =
      nonWSChars (joinData chunks) := by
  unfold segmentChunks
  rw [nonWS_feed_invariant chunks [] ""]
  rfl

/-! ### Helper lemmas: `gather` order independence and in-order delivery -/

lemma ttsPartIds_append (a b : List ClientEvent) :
    ttsPartIds (a ++ b) = ttsPartIds a ++ ttsPartIds b := by
  unfold ttsPartIds
  rw [List.filterMap_append]

/-- The streaming loop itself sends no audio events. -/
lemma ttsPartIds_processChunk (st : StreamState) (c : String) :
    ttsPartIds (processChunk st c).events = ttsPartIds st.events := by
  simp only [processChunk]
  by_cases hc : c = ""
  · rw [if_pos hc]
  · rw [if_neg hc]
    by_cases hlen : 1 < (split_into_sentences (st.buffer ++ c)).length
    · rw [if_pos hlen]
      show ttsPartIds (st.events ++ [ClientEvent.textChunk c]) = _
      rw [ttsPartIds_append]
      rw [show ttsPartIds [ClientEvent.textChunk c] = [] from rfl, List.append_nil]
    · rw [if_neg hlen]
      show ttsPartIds (st.events ++ [ClientEvent.textChunk c]) = _
      rw [ttsPartIds_append]
      rw [show ttsPartIds [ClientEvent.textChunk c] = [] from rfl, List.append_nil]

lemma ttsPartIds_foldl (chunks : List String) :
    ∀ st : StreamState,
      ttsPartIds ((chunks.foldl processChunk st).events) = ttsPartIds st.events := by
  induction chunks with
  | nil => intro st; rfl
  | cons c t ih =>
    intro st
    rw [List.foldl_cons, ih, ttsPartIds_processChunk]

lemma flushFinal_events (st : StreamState) : (flushFinal st).events = st.events := by
  unfold flushFinal
  split
  · rfl
  · rfl

/-- Looking an index up among the completed tasks yields that task's own
outcome, whatever the completion order. -/
lemma find_completed (tts : Nat → TtsOutcome) :
    ∀ (order : List Nat) (i : Nat) (p : Nat × TtsOutcome),
      (order.map (fun j => (j, tts j))).find? (fun q => q.1 == i) = some p →
      p = (i, tts i) := by
  intro order
  induction order with
  | nil =>
    intro i p h
    simp [List.find?] at h
  | cons j os ih =>
    intro i p h
    rw [List.map_cons] at h
    by_cases hj : j = i
    · subst hj
      rw [List.find?_cons_of_pos _ (by simp)] at h
      exact (Option.some_inj.mp h).symm
    · rw [List.find?_cons_of_neg _ (by simp [hj])] at h
      exact ih i p h

/-- `asyncio.gather` hands back the outcomes in dispatch order, independent
of the completion order: whenever it returns at all, the result is exactly
`[(0, tts 0), ..., (n-1, tts (n-1))]`. -/
lemma gather_eq (n : Nat) (order : List Nat) (tts : Nat → TtsOutcome)
    (results : List (Nat × TtsOutcome))
    (h : gatherResults n order tts = some results) :
    results = (List.range n).map (fun i => (i, tts i)) := by
  simp only [gatherResults] at h
  split at h
  · rename_i hall
    have hres := (Option.some_inj.mp h).symm
    rw [hres]
    apply List.map_congr_left
    intro i hi
    have hsome := List.all_eq_true.mp hall i hi
    rcases hfind : ((order.map (fun j => (j, tts j))).find?
      (fun q => q.1 == i)) with _ | p
    · rw [hfind] at hsome
      simp at hsome
    · have hp2 := find_completed tts order i p hfind
      rw [hfind, hp2]
      rfl
  · cases h

/-- The part ids of the delivery loop's audio events are the first
components of the successful outcomes, in result order. -/
lemma ttsPartIds_deliverLoop :
    ∀ (l : List (Nat × TtsOutcome)) (flag : Bool),
      ttsPartIds (deliverLoop l flag) =
        (l.filter (fun p => p.2 == TtsOutcome.audio)).map Prod.fst := by
  intro l
  induction l with
  | nil =>
    intro flag
    cases flag
    · rfl
    · rfl
  | cons p rest ih =>
    intro flag
    obtain ⟨i, o⟩ := p
    cases o with
    | exc =>
      rw [show deliverLoop ((i, TtsOutcome.exc) :: rest) flag =
        deliverLoop rest true from rfl, ih]
      rw [List.filter_cons, if_neg (by simp)]
    | noAudio =>
      rw [show deliverLoop ((i, TtsOutcome.noAudio) :: rest) flag =
        deliverLoop rest true from rfl, ih]
      rw [List.filter_cons, if_neg (by simp)]
    | audio =>
      rw [show deliverLoop ((i, TtsOutcome.audio) :: rest) flag =
        ClientEvent.ttsAudio i :: deliverLoop rest flag from rfl]
      rw [show ttsPartIds (ClientEvent.ttsAudio i :: deliverLoop rest flag) =
        i :: ttsPartIds (deliverLoop rest flag) from rfl, ih]
      rw [List.filter_cons, if_pos (by simp)]
      rfl

/-- Delivery of in-dispatch-order results yields strictly increasing part
ids. -/
lemma deliver_sorted (n : Nat) (tts : Nat → TtsOutcome) :
    List.Sorted (· < ·)
      (ttsPartIds (deliverEvents ((List.range n).map (fun i => (i, tts i))))) := by
  rw [deliverEvents, ttsPartIds_deliverLoop]
  have hmap : ((List.range n).map (fun i => (i, tts i))).map Prod.fst =
      List.range n := by
    rw [List.map_map]
    rw [show List.map (Prod.fst ∘ fun i => (i, tts i)) (List.range n) =
      List.map (fun a => a) (List.range n) from List.map_congr_left (fun a _ => rfl)]
    exact List.map_id' (List.range n)
  have hsub : List.Sublist ((((List.range n).map (fun i => (i, tts i))).filter
      (fun p => p.2 == TtsOutcome.audio)).map Prod.fst)
      (((List.range n).map (fun i => (i, tts i))).map Prod.fst) :=
    (List.filter_sublist _).map Prod.fst
  rw [hmap] at hsub
  exact (List.pairwise_lt_range n).sublist hsub

/-- Unfolding `process_text_model` for a non-empty text and a streaming LLM
response. -/
lemma process_text_model_stream (userText : String) (chunks : List String)
    (tts : Nat → TtsOutcome) (order : List Nat) (hne : strip userText ≠ "") :
    process_text_model userText (LlmResult.stream chunks) tts order =
      match gatherResults (flushFinal (chunks.foldl processChunk initState)).nParts
          order tts with
      | none => none
      | some results =>
          some (true, (flushFinal (chunks.foldl processChunk initState)).events ++
            deliverEvents results ++
            [ClientEvent.streamEnd
              (flushFinal (chunks.foldl processChunk initState)).fullResponse]) := by
  unfold process_text_model
  rw [if_neg hne]

/-- C1: whatever the incoming text, the collaborator behaviour, the
per-segment synthesis outcomes, and the completion order of the dispatched
synthesis tasks (including adversarial reverse order), whenever
`process_text` finishes a turn the `tts_audio` events it sent carry strictly
increasing part ids — delivery order equals dispatch order. -/
theorem tts_delivery_order (userText : String) (llm : LlmResult)
    (tts : Nat → TtsOutcome) (order : List Nat) (res : Bool × List ClientEvent)
    (h : process_text_model userText llm tts order = some res) :
    List.Sorted (· < ·) (ttsPartIds res.2) := by
  cases llm with
  | connectError =>
    unfold process_text_model at h
    by_cases hempty : strip userText = ""
    · rw [if_pos hempty] at h
      obtain rfl := Option.some_inj.mp h
      exact List.sorted_nil
    · rw [if_neg hempty] at h
      obtain rfl := Option.some_inj.mp h
      exact List.sorted_nil
  | badStatus c =>
    unfold process_text_model at h
    by_cases hempty : strip userText = ""
    · rw [if_pos hempty] at h
      obtain rfl := Option.some_inj.mp h
      exact List.sorted_nil
    · rw [if_neg hempty] at h
      obtain rfl := Option.some_inj.mp h
      exact List.sorted_nil
  | stream chunks =>
    by_cases hempty : strip userText = ""
    · unfold process_text_model at h
      rw [if_pos hempty] at h
      obtain rfl := Option.some_inj.mp h
      exact List.sorted_nil
    · rw [process_text_model_stream userText chunks tts order hempty] at h
      cases hg : gatherResults
          (flushFinal (chunks.foldl processChunk initState)).nParts order tts with
      | none =>
        rw [hg] at h
        simp at h
      | some results =>
        rw [hg] at h
        obtain rfl := Option.some_inj.mp h
        show List.Sorted (· < ·) (ttsPartIds
          ((flushFinal (chunks.foldl processChunk initState)).events ++
            deliverEvents results ++
            [ClientEvent.streamEnd
              (flushFinal (chunks.foldl processChunk initState)).fullResponse]))
        rw [ttsPartIds_append, ttsPartIds_append, flushFinal_events,
          ttsPartIds_foldl]
        rw [show ttsPartIds initState.events = [] from rfl, List.nil_append]
        rw [show ttsPartIds [ClientEvent.streamEnd
          (flushFinal (chunks.foldl processChunk initState)).fullResponse] = []
          from rfl, List.append_nil]
        rw [gather_eq _ _ _ _ hg]
        exact deliver_sorted _ tts

theorem tts_delivery_order_witness :
    List.Sorted (· < ·) (ttsPartIds
      (((process_text_model "hi" (LlmResult.stream ["One. Two. Three. "])
        (fun _ => TtsOutcome.audio) [2, 1, 0]).getD (false, [])).2)) :=
  tts_delivery_order "hi" (LlmResult.stream ["One. Two. Three. "])
    (fun _ => TtsOutcome.audio) [2, 1, 0] _ (by decide)

/-- C2, amended: when synthesis segment 2 of 3 fails while segments 1 and 3
succeed (whatever order the three tasks complete in), the turn is not
aborted — the client still receives the audio of both successful segments
in dispatch order, followed by one aggregated warning after all audio:
audio 1, audio 3, then the warning (not interleaved at the failed
position). -/
theorem segment_failure_isolated (order : List Nat) (res : Bool × List ClientEvent)
    (h : process_text_model "hi" (LlmResult.stream ["One. Two. Three. "])
      (fun i => if i = 1 then TtsOutcome.noAudio else TtsOutcome.audio) order =
      some res) :
    audioWarnTrace res.2 =
      [ClientEvent.ttsAudio 0, ClientEvent.ttsAudio 2,
        ClientEvent.errorEvent ttsWarnMsg] := by
  rw [process_text_model_stream _ _ _ _ (by decide)] at h
  cases hg : gatherResults
      (flushFinal ((["One. Two. Three. "] : List String).foldl processChunk
        initState)).nParts order
      (fun i => if i = 1 then TtsOutcome.noAudio else TtsOutcome.audio) with
  | none =>
    rw [hg] at h
    simp at h
  | some results =>
    rw [hg] at h
    obtain rfl := Option.some_inj.mp h
    have hres := gather_eq _ _ _ _ hg
    have hn : (flushFinal ((["One. Two. Three. "] : List String).foldl processChunk
        initState)).nParts = 3 := by decide
    rw [hn] at hres
    rw [show (List.range 3).map
        (fun i => (i, (fun i => if i = 1 then TtsOutcome.noAudio
          else TtsOutcome.audio) i)) =
        [(0, TtsOutcome.audio), (1, TtsOutcome.noAudio), (2, TtsOutcome.audio)]
      from by decide] at hres
    subst hres
    decide

theorem segment_failure_isolated_witness :
    audioWarnTrace
      (((process_text_model "hi" (LlmResult.stream ["One. Two. Three. "])
        (fun i => if i = 1 then TtsOutcome.noAudio else TtsOutcome.audio)
        [1, 2, 0]).getD (false, [])).2) =
      [ClientEvent.ttsAudio 0, ClientEvent.ttsAudio 2,
        ClientEvent.errorEvent ttsWarnMsg] :=
  segment_failure_isolated [1, 2, 0] _ (by decide)

/-! ### Helper lemmas: characters surviving `clean_for_tts` -/

lemma takeUrl_mem : ∀ (cs r : List Char), takeUrl cs = some r → ∀ x ∈ r, x ∈ cs := by
  intro cs
  induction cs with
  | nil =>
    intro r h
    cases h
  | cons c rest ih =>
    intro r h x hx
    unfold takeUrl at h
    by_cases hc : c = ')'
    · rw [if_pos hc] at h
      obtain rfl := Option.some_inj.mp h
      exact List.mem_cons_of_mem c hx
    · rw [if_neg hc] at h
      by_cases hn : c = '\n'
      · rw [if_pos hn] at h
        cases h
      · rw [if_neg hn] at h
        exact List.mem_cons_of_mem c (ih r h x hx)

/-- Lifting the membership bound of a recursive `tryFrom` call over one more
absorbed character. -/
lemma tryFrom_mem_step {labRev label rest3 : List Char} {c : Char}
    {rest : List Char}
    (hstep : (∀ x ∈ label, x ∈ (c :: labRev) ∨ x ∈ rest) ∧
      (∀ x ∈ rest3, x ∈ rest)) :
    (∀ x ∈ label, x ∈ labRev ∨ x ∈ c :: rest) ∧ (∀ x ∈ rest3, x ∈ c :: rest) := by
  obtain ⟨hl, hr⟩ := hstep
  constructor
  · intro x hx
    rcases hl x hx with hx2 | hx2
    · rcases List.mem_cons.mp hx2 with rfl | hx3
      · right
        exact List.mem_cons_self ..
      · left
        exact hx3
    · right
      exact List.mem_cons_of_mem c hx2
  · intro x hx
    exact List.mem_cons_of_mem c (hr x hx)

/-- Unfolding `tryFrom` over a two-or-more-character tail. -/
lemma tryFrom_cons_cons (labRev : List Char) (c c2 : Char) (rest2 : List Char) :
    tryFrom labRev (c :: c2 :: rest2) =
      if c = ']' then
        (if c2 = '(' then
          match takeUrl rest2 with
          | some rest3 => some (labRev.reverse, rest3)
          | none => tryFrom (c :: labRev) (c2 :: rest2)
        else tryFrom (c :: labRev) (c2 :: rest2))
      else if c = '\n' then none
      else tryFrom (c :: labRev) (c2 :: rest2) := rfl

lemma tryFrom_cons_nil (labRev : List Char) (c : Char) :
    tryFrom labRev [c] =
      if c = ']' then none
      else if c = '\n' then none
      else none := rfl

lemma tryFrom_singleton (labRev : List Char) (c : Char) :
    tryFrom labRev [c] = none := by
  rw [tryFrom_cons_nil]
  by_cases hc : c = ']'
  · rw [if_pos hc]
  · rw [if_neg hc]
    by_cases hn : c = '\n'
    · rw [if_pos hn]
    · rw [if_neg hn]

/-- Every character of the matched label and of the remaining text after a
link match comes from the scanned text. -/
lemma tryFrom_mem :
    ∀ (cs labRev label rest3 : List Char),
      tryFrom labRev cs = some (label, rest3) →
      (∀ x ∈ label, x ∈ labRev ∨ x ∈ cs) ∧ (∀ x ∈ rest3, x ∈ cs) := by
  intro cs
  induction cs with
  | nil =>
    intro labRev label rest3 h
    cases h
  | cons c rest ih =>
    intro labRev label rest3 h
    cases rest with
    | nil =>
      rw [tryFrom_singleton] at h
      exact Option.noConfusion h
    | cons c2 rest2 =>
      rw [tryFrom_cons_cons] at h
      by_cases hc : c = ']'
      · rw [if_pos hc] at h
        by_cases h2 : c2 = '('
        · rw [if_pos h2] at h
          cases hu : takeUrl rest2 with
          | some r3 =>
            rw [hu] at h
            have hpair := Option.some_inj.mp h
            obtain ⟨h3, h4⟩ := Prod.mk.injEq .. |>.mp hpair
            constructor
            · intro x hx
              left
              rw [← h3] at hx
              exact List.mem_reverse.mp hx
            · intro x hx
              rw [← h4] at hx
              exact List.mem_cons_of_mem c
                (List.mem_cons_of_mem c2 (takeUrl_mem rest2 r3 hu x hx))
          | none =>
            rw [hu] at h
            exact tryFrom_mem_step (ih (c :: labRev) label rest3 h)
        · rw [if_neg h2] at h
          exact tryFrom_mem_step (ih (c :: labRev) label rest3 h)
      · rw [if_neg hc] at h
        by_cases hn : c = '\n'
        · rw [if_pos hn] at h
          exact Option.noConfusion h
        · rw [if_neg hn] at h
          exact tryFrom_mem_step (ih (c :: labRev) label rest3 h)

/-- Every character of the link-collapsed text comes from the input. -/
lemma subLinksGo_mem :
    ∀ (fuel : Nat) (cs : List Char), ∀ x ∈ subLinksGo fuel cs, x ∈ cs := by
  intro fuel
  induction fuel with
  | zero =>
    intro cs x hx
    cases cs with
    | nil => exact absurd hx (List.not_mem_nil x)
    | cons c rest => exact hx
  | succ n ih =>
    intro cs x hx
    cases cs with
    | nil => exact absurd hx (List.not_mem_nil x)
    | cons c rest =>
      unfold subLinksGo at hx
      by_cases hc : c = '['
      · rw [if_pos hc] at hx
        cases ht : tryFrom [] rest with
        | some pr =>
          obtain ⟨label, rest3⟩ := pr
          rw [ht] at hx
          rcases List.mem_append.mp hx with hx2 | hx2
          · rcases (tryFrom_mem rest [] label rest3 ht).1 x hx2 with hx3 | hx3
            · exact absurd hx3 (List.not_mem_nil x)
            · exact List.mem_cons_of_mem c hx3
          · exact List.mem_cons_of_mem c
              ((tryFrom_mem rest [] label rest3 ht).2 x (ih rest3 x hx2))
        | none =>
          rw [ht] at hx
          rcases List.mem_cons.mp hx with rfl | hx2
          · exact List.mem_cons_self ..
          · exact List.mem_cons_of_mem c (ih rest x hx2)
      · rw [if_neg hc] at hx
        rcases List.mem_cons.mp hx with rfl | hx2
        · exact List.mem_cons_self ..
        · exact List.mem_cons_of_mem c (ih rest x hx2)

/-- Every character surviving the single `replace('  ', ' ')` pass comes
from the input. -/
lemma collapse_mem :
    ∀ (n : Nat) (l : List Char), l.length ≤ n →
      ∀ x ∈ collapseDoubleSpace l, x ∈ l := by
  intro n
  induction n with
  | zero =>
    intro l hl x hx
    have : l = [] := List.length_eq_zero.mp (by omega)
    subst this
    exact absurd hx (List.not_mem_nil x)
  | succ n ih =>
    intro l hl x hx
    match l with
    | [] => exact absurd hx (List.not_mem_nil x)
    | [c] => exact hx
    | c1 :: c2 :: rest =>
      unfold collapseDoubleSpace at hx
      by_cases hsp : (c1 = ' ' && c2 = ' ') = true
      · rw [if_pos hsp] at hx
        rcases List.mem_cons.mp hx with rfl | hx2
        · obtain ⟨e1, e2⟩ := Bool.and_eq_true .. |>.mp hsp
          rw [show c1 = ' ' from by simpa using e1]
          exact List.mem_cons_self ..
        · have hx3 := ih rest (by simp at hl ⊢; omega) x hx2
          exact List.mem_cons_of_mem c1 (List.mem_cons_of_mem c2 hx3)
      · rw [if_neg hsp] at hx
        rcases List.mem_cons.mp hx with rfl | hx2
        · exact List.mem_cons_self ..
        · have hx3 := ih (c2 :: rest) (by simp at hl ⊢; omega) x hx2
          exact List.mem_cons_of_mem c1 hx3

lemma stripChars_mem (l : List Char) (x : Char) (hx : x ∈ stripChars l) : x ∈ l := by
  unfold stripChars at hx
  rw [List.mem_reverse] at hx
  have h1 := (List.dropWhile_sublist _).subset hx
  rw [List.mem_reverse] at h1
  exact (List.dropWhile_sublist _).subset h1

/-- C8, amended: the cleanup removes every `*`, backtick, `#` and `_`,
collapses each markdown link to its display text, and replaces every
newline by a space — the result never contains a marker character or a
newline; but repeated whitespace is only partially collapsed (a single
left-to-right pass replaces non-overlapping space pairs), so runs of
whitespace may survive. -/
theorem clean_removes_markers_newlines :
    (∀ s : String, noBadChars (clean_for_tts s) = true) ∧
    clean_for_tts "see [docs](http://x) now" = "see docs now" := by
  constructor
  · intro s
    unfold noBadChars
    rw [List.all_eq_true]
    intro c hc
    simp only [clean_for_tts] at hc
    by_cases hs : s = ""
    · rw [if_pos hs] at hc
      exact absurd hc (List.not_mem_nil c)
    · rw [if_neg hs, data_mk] at hc
      have hc2 := stripChars_mem _ _ hc
      have hc3 := collapse_mem _ _ (le_refl _) _ hc2
      obtain ⟨d, hd, hfd⟩ := List.mem_map.mp hc3
      by_cases hdn : d = '\n'
      · rw [← hfd, if_pos hdn]
        decide
      · rw [← hfd, if_neg hdn]
        have hd2 := subLinksGo_mem _ _ d hd
        have hd4 : isMarker d = false := by
          simpa using List.of_mem_filter hd2
        simp [badChar, hd4, hdn]
  · decide

end Auri
